import Mathlib

/-!
Verification of the sassers stylesheet compiler against its natural-language
specification.  Each Rust module that the claims touch is shallowly embedded
as executable Lean definitions; machine floats (`f32`) are modelled as `ℚ`
(exact on the small decimal literals exercised here), byte strings as
`List Char` (the sources under scrutiny are ASCII, where bytes and chars
coincide), and fallible or panicking code as explicit result inductives.
-/

set_option maxRecDepth 4000

namespace VT

/-! Embedding of `src/value_tokenizer.rs` (`ValueTokenizer`).  The struct's
`value_str`/`bytes` field is the `List Char` argument `s`; the mutable
`offset` field is threaded explicitly. -/

/-- Operator tokens, from `sass/op.rs` (`Op`); the variants are those the
value tokenizer's tests name (`Plus`, `LeftParen`, ...). -/
inductive Op where
  | Plus
  | Minus
  | Star
  | Slash
  | Percent
  | LeftParen
  | RightParen
  | Comma
deriving DecidableEq, Repr

/-- Value parts, from `src/sass/value_part.rs`: `Variable`, `String`,
`Number(f32)`, `Operator`.  The `f32` payload is modelled as `ℚ`. -/
inductive ValuePart where
  | Variable (name : List Char)
  | String (s : List Char)
  | Number (n : ℚ)
  | Operator (op : Op)
deriving DecidableEq, Repr

/-- Predicate `is_space` from `src/value_tokenizer.rs`: only the ASCII
space byte counts. -/
def is_space (c : Char) : Bool := c = ' '

/-- Predicate `isnt_space` from `src/value_tokenizer.rs`. -/
def isnt_space (c : Char) : Bool := !(is_space c)

/-- Predicate `is_number` from `src/value_tokenizer.rs`: the byte range
`b'0' ... b'9'` or `b'.'`. -/
def is_number (c : Char) : Bool := ('0' ≤ c && c ≤ '9') || c = '.'

/-- Predicate `is_operator` from `src/value_tokenizer.rs`. -/
def is_operator (c : Char) : Bool :=
  c = '+' || c = '-' || c = '*' || c = '/' || c = '%' ||
  c = '(' || c = ')' || c = ','

/-- Method `scan_while` from `src/value_tokenizer.rs`: the position of the
first byte of `data` failing `f`, or `data.len()` when none fails. -/
def scan_while (data : List Char) (f : Char → Bool) : Nat :=
  (data.takeWhile f).length

/-- Method `skip_leading_whitespace`: starting at `offset`, advance over the
run of spaces (the Rust loop re-tests the first non-space byte and returns,
or exits at the limit; both cases land exactly past the space run). -/
def skip_leading_whitespace (s : List Char) (offset : Nat) : Nat :=
  offset + scan_while (s.drop offset) is_space

/-- Conversion of a single-character operator slice by `str::parse::<Op>()`
(used only on bytes satisfying `is_operator`, where it cannot fail). -/
def char_to_op (c : Char) : Op :=
  if c = '+' then .Plus
  else if c = '-' then .Minus
  else if c = '*' then .Star
  else if c = '/' then .Slash
  else if c = '%' then .Percent
  else if c = '(' then .LeftParen
  else if c = ')' then .RightParen
  else .Comma

/-- Numeric value of a decimal digit character. -/
def digitVal (c : Char) : Nat := c.toNat - '0'.toNat

/-- Value of a run of decimal digits. -/
def natOfDigits (ds : List Char) : Nat :=
  ds.foldl (fun a c => 10 * a + digitVal c) 0

/-- Whether a run of `[0-9.]` bytes is accepted by Rust's
`str::parse::<f32>`: at least one digit and at most one dot (`"1."`, `".5"`,
`"10"` parse; `"."` and `"1.2.3"` do not). -/
def valid_f32_run (cs : List Char) : Bool :=
  (cs.countP (fun c => c = '.')) ≤ 1 && cs.any (fun c => c.isDigit)

/-- Numeric value of an accepted `[0-9.]` run, modelling the `f32` result
as the exact rational. -/
def ratOfRun (cs : List Char) : ℚ :=
  let ip := cs.takeWhile (fun c => c != '.')
  let fp := (cs.dropWhile (fun c => c != '.')).drop 1
  (natOfDigits ip : ℚ) + (natOfDigits fp : ℚ) / (10 ^ fp.length : ℚ)

/-- Outcome of one `parse` call: the part together with the new offset, or a
panic (out-of-bounds index `self.bytes[start]`, or `unwrap` of a failed
`f32` parse). -/
inductive ParseOut where
  | panicked
  | yielded (part : ValuePart) (offset : Nat)
deriving DecidableEq, Repr

/-- Method `parse` from `src/value_tokenizer.rs` lines 21-44.  `bytes[start]`
is the head of `s.drop start`; indexing at or past the limit panics, which
the `[]` branch records. -/
def parse (s : List Char) (offset : Nat) : ParseOut :=
  let start := skip_leading_whitespace s offset
  match s.drop start with
  | [] => .panicked
  | c :: _ =>
    if is_operator c then
      .yielded (.Operator (char_to_op c)) (start + 1)
    else if is_number c then
      let run := (s.drop start).takeWhile is_number
      if valid_f32_run run then
        .yielded (.Number (ratOfRun run)) (start + scan_while (s.drop start) is_number)
      else
        .panicked
    else if c = '$' then
      .yielded (.Variable ((s.drop start).takeWhile isnt_space))
        (start + scan_while (s.drop start) isnt_space)
    else
      .yielded (.String ((s.drop start).takeWhile isnt_space))
        (start + scan_while (s.drop start) isnt_space)

/-- Outcome of one `Iterator::next` call on the value tokenizer. -/
inductive NextOut where
  | finished
  | panicked
  | yielded (part : ValuePart) (offset : Nat)
deriving DecidableEq, Repr

/-- Method `next` of `impl Iterator for ValueTokenizer`: guard
`offset < len`, then `parse`. -/
def vnext (s : List Char) (offset : Nat) : NextOut :=
  if offset < s.length then
    match parse s offset with
    | .panicked => .panicked
    | .yielded p o => .yielded p o
  else .finished

/-- Outcome of repeatedly calling `next` until `None`. -/
inductive RunOut where
  | ok (parts : List ValuePart)
  | panicked (parts : List ValuePart)
  | fuelOut
deriving DecidableEq, Repr

/-- Driver looping `next` with explicit fuel (each successful `parse`
advances the offset, so `s.length + 1` steps suffice on terminating runs). -/
def runFrom (s : List Char) : Nat → Nat → RunOut
  | 0, _ => .fuelOut
  | fuel + 1, offset =>
    match vnext s offset with
    | .finished => .ok []
    | .panicked => .panicked []
    | .yielded p o =>
      match runFrom s fuel o with
      | .ok ps => .ok (p :: ps)
      | .panicked ps => .panicked (p :: ps)
      | .fuelOut => .fuelOut

/-- Tokenize a whole value string from offset 0. -/
def tokenizeAll (s : List Char) : RunOut := runFrom s (s.length + 1) 0

end VT

/-- Error kinds from `src/error.rs` (`ErrorKind`), together with the two
mixin kinds (`ExpectedMixin`, `ExpectedMixinArgument`) that
`src/substituter.rs` names.  Error messages are elided in the model. -/
inductive ErrorKind where
  | IoError
  | InvalidStyle
  | InvalidColor
  | TokenizerError
  | ExpectedValue
  | ExpectedOperator
  | UnexpectedEof
  | InvalidOperator
  | InvalidApplyListArgs
  | InvalidApplyMathArgs
  | InvalidSquareUnits
  | IncompatibleUnits
  | ExpectedMixin
  | ExpectedMixinArgument
deriving DecidableEq, Repr

namespace Color

/-! Embedding of `src/sass/color_value.rs` (`ColorValue`). -/

/-- Value of one hexadecimal digit character, as accepted by
`i32::from_str_radix(_, 16)`: codepoints of `0`-`9` (48-57), `a`-`f`
(97-102), `A`-`F` (65-70). -/
def hexDigitVal (c : Char) : Option Nat :=
  if 48 ≤ c.toNat && c.toNat ≤ 57 then some (c.toNat - 48)
  else if 97 ≤ c.toNat && c.toNat ≤ 102 then some (c.toNat - 87)
  else if 65 ≤ c.toNat && c.toNat ≤ 70 then some (c.toNat - 55)
  else none

/-- Value of a non-empty all-hex-digit run in base 16. -/
def hexDigitsVal (ds : List Char) : Option Nat :=
  match ds with
  | [] => none
  | _ =>
    (ds.mapM hexDigitVal).map (fun l => l.foldl (fun a d => 16 * a + d) 0)

/-- Rust `i32::from_str_radix(s, 16)`: an optional leading `+`/`-` sign,
then at least one hex digit; `none` models `Err`.  Overflow cannot occur on
the one- and two-character slices `from_hex` passes. -/
def from_str_radix16 (cs : List Char) : Option ℤ :=
  match cs with
  | [] => none
  | c :: rest =>
    if c = '+' then (hexDigitsVal rest).map (fun n => (n : ℤ))
    else if c = '-' then (hexDigitsVal rest).map (fun n => -(n : ℤ))
    else (hexDigitsVal cs).map (fun n => (n : ℤ))

/-- The struct `ColorValue`: `red/green/blue: i32` modelled as `ℤ`,
`original` as the character list. -/
structure ColorValue where
  red : ℤ
  green : ℤ
  blue : ℤ
  original : List Char
deriving DecidableEq, Repr

/-- Number values from `src/sass/number_value.rs` (`NumberValue`), scalar
`f32` modelled as `ℚ`. -/
structure NumberValue where
  scalar : ℚ
  unit : Option (List Char)
  computed : Bool
deriving DecidableEq, Repr

/-- Truncation of `ℚ` toward zero, as an `f32 as i32` cast truncates. -/
def ratTrunc (q : ℚ) : ℤ := if 0 ≤ q then ⌊q⌋ else ⌈q⌉

/-- Rust `f32 as i32` cast: truncation toward zero, saturating at the
`i32` bounds. -/
def f32_as_i32 (q : ℚ) : ℤ :=
  max (-(2 : ℤ) ^ 31) (min ((2 : ℤ) ^ 31 - 1) (ratTrunc q))

/-- Modelled from the spec: `Op::math` (the file `src/sass/op.rs` is not
among the provided sources).  Spec 4.B lists the binary arithmetic
operators `+ - * / %`; grouping and comma operators are not arithmetic, so
they yield `InvalidOperator`.  `f32` arithmetic is modelled exactly over
`ℚ` (division by zero gives 0 here where `f32` gives an infinity; the
claims settled with this definition do not depend on that point). -/
def opMath (op : VT.Op) (l r : ℚ) : Except ErrorKind ℚ :=
  match op with
  | .Plus => .ok (l + r)
  | .Minus => .ok (l - r)
  | .Star => .ok (l * r)
  | .Slash => .ok (l / r)
  | .Percent => .ok (l - r * (ratTrunc (l / r) : ℚ))
  | _ => .error .InvalidOperator

/-- Rust format specifier `{:02x}` applied to an `i32`: the value is
reinterpreted as `u32` and printed in lowercase hex, zero-padded to at
least two digits. -/
def fmt02x (n : ℤ) : List Char :=
  let m := (n % (2 : ℤ) ^ 32).toNat
  let ds := Nat.toDigits 16 m
  if ds.length < 2 then '0' :: ds else ds

/-- Constructor `ColorValue::from_rgb` (`src/sass/color_value.rs` lines
41-45): stores the channels unchanged (no clamping) and formats
`original` as `#rrggbb`. -/
def from_rgb (r g b : ℤ) : ColorValue :=
  { red := r, green := g, blue := b,
    original := '#' :: (fmt02x r ++ fmt02x g ++ fmt02x b) }

/-- Result of `ColorValue::from_hex`: the color, a `SassError`, or a panic
(an `unwrap` of a failed `from_str_radix`). -/
inductive FromHexResult where
  | ok (c : ColorValue)
  | error (kind : ErrorKind)
  | panicked
deriving DecidableEq, Repr

/-- Constructor `ColorValue::from_hex` (`src/sass/color_value.rs` lines
18-39).  Rust slices `&hex[i..j]` are `(hex.drop i).take (j-i)`; a slice
whose radix-16 parse fails is `unwrap`ped, i.e. panics. -/
def from_hex (hex : List Char) : FromHexResult :=
  if hex.length = 4 then
    match from_str_radix16 ((hex.drop 1).take 1),
          from_str_radix16 ((hex.drop 2).take 1),
          from_str_radix16 ((hex.drop 3).take 1) with
    | some r, some g, some b =>
      .ok { red := r * 17, green := g * 17, blue := b * 17, original := hex }
    | _, _, _ => .panicked
  else if hex.length = 7 then
    match from_str_radix16 ((hex.drop 1).take 2),
          from_str_radix16 ((hex.drop 3).take 2),
          from_str_radix16 ((hex.drop 5).take 2) with
    | some r, some g, some b =>
      .ok { red := r, green := g, blue := b, original := hex }
    | _, _, _ => .panicked
  else .error .InvalidColor

/-- Method `ColorValue::apply_math` (`src/sass/color_value.rs` lines
54-60): channel-wise `op` with the scalar, each channel capped above by
`cmp::min(_, 255)`; there is no lower cap. -/
def apply_math (c : ColorValue) (op : VT.Op) (nv : NumberValue) :
    Except ErrorKind ColorValue := do
  let r ← opMath op (c.red : ℚ) nv.scalar
  let g ← opMath op (c.green : ℚ) nv.scalar
  let b ← opMath op (c.blue : ℚ) nv.scalar
  pure (from_rgb (min (f32_as_i32 r) 255) (min (f32_as_i32 g) 255)
    (min (f32_as_i32 b) 255))

/-- Method `ColorValue::combine_colors` (`src/sass/color_value.rs` lines
62-68): channel-wise `op` on the two colors, with no clamping at all. -/
def combine_colors (c : ColorValue) (op : VT.Op) (d : ColorValue) :
    Except ErrorKind ColorValue := do
  let r ← opMath op (c.red : ℚ) (d.red : ℚ)
  let g ← opMath op (c.green : ℚ) (d.green : ℚ)
  let b ← opMath op (c.blue : ℚ) (d.blue : ℚ)
  pure (from_rgb (f32_as_i32 r) (f32_as_i32 g) (f32_as_i32 b))

end Color

namespace Rule

/-! Embedding of `src/sass/rule.rs` (`SassRule`) with `src/ast/node.rs`
(`Node`).  `token.rs` is not among the provided sources; the code under
scrutiny uses a lexeme's token only through its display text
(`s.token.to_string()`, `format!`, `contains`, `replace`), so
`Lexeme.token` is modelled as that text, as a character list so that the
`str` operations stay executable. -/

/-- ASCII whitespace, as `str::trim` sees it on the inputs at hand. -/
def isWs (c : Char) : Bool := c = ' ' || c = '\n' || c = '\t' || c = '\r'

/-- Rust `str::trim`: drop whitespace from both ends. -/
def trimChars (s : List Char) : List Char :=
  ((s.dropWhile isWs).reverse.dropWhile isWs).reverse

/-- Rust `str::split(',')`: split on every comma, keeping empty pieces
(`""` yields `[""]`, `","` yields `["", ""]`). -/
def splitOnComma : List Char → List (List Char)
  | [] => [[]]
  | c :: rest =>
    let r := splitOnComma rest
    if c = ',' then [] :: r
    else
      match r with
      | h :: t => (c :: h) :: t
      | [] => [[c]]

/-- Rust `str::replace("&", r)` for the one-character pattern `&`. -/
def replaceAmp (s : List Char) (r : List Char) : List Char :=
  s.flatMap (fun c => if c = '&' then r else [c])

/-- Lexeme: display text of the token plus the diagnostic offset. -/
structure Lexeme where
  token : List Char
  offset : Option Nat
deriving DecidableEq, Repr

mutual
/-- AST nodes from `src/ast/node.rs`: a nested rule or a property
(name and value lexemes). -/
inductive Node where
  | Rule (rule : SassRule)
  | Property (name : Lexeme) (value : Lexeme)

/-- Rules from `src/sass/rule.rs`: a selector list and child nodes. -/
inductive SassRule where
  | mk (selectors : List Lexeme) (children : List Node)
end

/-- Field accessor `SassRule.selectors`. -/
def SassRule.selectors : SassRule → List Lexeme
  | .mk s _ => s

/-- Field accessor `SassRule.children`. -/
def SassRule.children : SassRule → List Node
  | .mk _ c => c

/-- Method `SassRule::child_properties`: the direct children that are
properties. -/
def SassRule.child_properties (self : SassRule) : List Node :=
  self.children.filter (fun c =>
    match c with
    | .Rule _ => false
    | .Property _ _ => true)

/-- Method `SassRule::child_rules`: the direct children that are rules. -/
def SassRule.child_rules (self : SassRule) : List SassRule :=
  self.children.filterMap (fun c =>
    match c with
    | .Rule rule => some rule
    | .Property _ _ => none)

/-- Method `SassRule::has_properties`. -/
def SassRule.has_properties (self : SassRule) : Bool :=
  !(self.child_properties.isEmpty)

/-- Method `SassRule::selector_distribution` (`src/sass/rule.rs` lines
24-37): with an empty ancestor chain, join the selector tokens with the
separator; otherwise split the chain on `,` and, per segment and selector,
either substitute the trimmed segment for every `&` or prepend the trimmed
segment and a space.  Rust `contains("&")` with a one-character pattern is
character containment. -/
def SassRule.selector_distribution (self : SassRule) (parents : List Char)
    (separator : List Char) : List Char :=
  match parents.length with
  | 0 => List.intercalate separator (self.selectors.map (fun s => s.token))
  | _ + 1 =>
    List.intercalate separator ((splitOnComma parents).map (fun p =>
      List.intercalate separator (self.selectors.map (fun s =>
        if s.token.contains '&' then
          replaceAmp s.token (trimChars p)
        else
          trimChars p ++ [' '] ++ s.token))))

mutual
/-- Recursive child-node count; the termination measure for
`optimize`/`collapse_with_parent_selectors` (selectors do not count,
because collapsing rebuilds the selector list). -/
def nodeWeight : Node → Nat
  | .Rule r => ruleWeight r
  | .Property _ _ => 1

/-- Weight of a rule: one plus the weight of its children. -/
def ruleWeight : SassRule → Nat
  | .mk _ children => 1 + nodesWeight children

/-- Weight of a node list. -/
def nodesWeight : List Node → Nat
  | [] => 0
  | n :: ns => nodeWeight n + nodesWeight ns
end

/-- Total weight of a list of rules. -/
def sumWeights (rs : List SassRule) : Nat := (rs.map ruleWeight).sum

theorem nodeWeight_le_nodesWeight {n : Node} {ns : List Node} (h : n ∈ ns) :
    nodeWeight n ≤ nodesWeight ns := by
  induction ns with
  | nil => cases h
  | cons m ms ih =>
    rcases List.mem_cons.mp h with rfl | hm
    · simp [nodesWeight]
    · calc nodeWeight n ≤ nodesWeight ms := ih hm
        _ ≤ nodeWeight m + nodesWeight ms := Nat.le_add_left _ _
        _ = nodesWeight (m :: ms) := rfl

theorem sumWeights_filterMap_le (ns : List Node) :
    sumWeights (ns.filterMap (fun c =>
      match c with
      | Node.Rule rule => some rule
      | Node.Property _ _ => none)) ≤ nodesWeight ns := by
  induction ns with
  | nil => simp [sumWeights, nodesWeight]
  | cons m ms ih =>
    cases m with
    | Rule r =>
      simp only [List.filterMap_cons, sumWeights, List.map_cons, List.sum_cons,
        nodesWeight, nodeWeight]
      exact Nat.add_le_add_left ih _
    | Property a b =>
      simp only [List.filterMap_cons, nodesWeight, nodeWeight]
      calc sumWeights (ms.filterMap _) ≤ nodesWeight ms := ih
        _ ≤ 1 + nodesWeight ms := Nat.le_add_left _ _

theorem sumWeights_child_rules_lt (r : SassRule) :
    sumWeights r.child_rules < ruleWeight r := by
  cases r with
  | mk sel ch =>
    have h := sumWeights_filterMap_le ch
    simp only [SassRule.child_rules, SassRule.children]
    calc sumWeights (ch.filterMap _) ≤ nodesWeight ch := h
      _ < 1 + nodesWeight ch := Nat.lt_one_add_iff.mpr le_rfl
      _ = ruleWeight (SassRule.mk sel ch) := rfl

theorem ruleWeight_mk_children (sel : List Lexeme) (r : SassRule) :
    ruleWeight (SassRule.mk sel r.children) = ruleWeight r := by
  cases r; rfl

theorem ruleWeight_pos (r : SassRule) : 0 < ruleWeight r := by
  cases r with
  | mk sel ch => simp [ruleWeight]

mutual
/-- Method `SassRule::optimize` (`src/sass/rule.rs` lines 102-112): keep
the rule verbatim when it has a direct property; otherwise replace it by
the concatenation of its collapsed child rules (the source's `flat_map`,
written as the list recursion `collapseList`). -/
def SassRule.optimize (self : SassRule) : List SassRule :=
  if self.has_properties then [self]
  else SassRule.collapseList self.child_rules self.selectors
termination_by (ruleWeight self, 0)
decreasing_by
  simp only [Prod.lex_def]
  exact Or.inl (sumWeights_child_rules_lt self)

/-- Method `SassRule::collapse_with_parent_selectors` (`src/sass/rule.rs`
lines 114-127): cross product `parent.token + " " + child.token` (no `&`
handling, no trimming, offset taken from the parent), then re-optimize. -/
def SassRule.collapse_with_parent_selectors (self : SassRule)
    (parents : List Lexeme) : List SassRule :=
  let new_selectors := parents.flatMap (fun p =>
    self.selectors.map (fun c =>
      { token := p.token ++ [' '] ++ c.token, offset := p.offset }))
  (SassRule.mk new_selectors self.children).optimize
termination_by (ruleWeight self, 1)
decreasing_by
  simp [Prod.lex_def, ruleWeight_mk_children]

/-- The `flat_map` of `optimize`, as explicit recursion over the child
rules. -/
def SassRule.collapseList (rules : List SassRule) (parents : List Lexeme) :
    List SassRule :=
  match rules with
  | [] => []
  | r :: rs =>
    r.collapse_with_parent_selectors parents ++ SassRule.collapseList rs parents
termination_by (sumWeights rules, 2)
decreasing_by
  · simp only [Prod.lex_def, sumWeights, List.map_cons, List.sum_cons]
    omega
  · have := ruleWeight_pos r
    simp only [Prod.lex_def, sumWeights, List.map_cons, List.sum_cons]
    omega
end

/-- Distribution operator as claim C4 states it: split the ancestor chain
on commas; for each segment and child selector produce
`segment + " " + child` (the segment not trimmed in this branch), except
that a child containing `&` has every `&` replaced by the trimmed segment.
Written from the claim's words, to be compared with
`selector_distribution` and `collapse_with_parent_selectors`. -/
def claimed_distribution (selectors : List (List Char)) (parents : List Char)
    (separator : List Char) : List Char :=
  List.intercalate separator ((splitOnComma parents).map (fun p =>
    List.intercalate separator (selectors.map (fun c =>
      if c.contains '&' then replaceAmp c (trimChars p)
      else p ++ [' '] ++ c))))

/-- Distribution operator as amended: the segment is trimmed in the plain
branch as well — the formula `selector_distribution` computes for a
non-empty ancestor chain. -/
def amended_distribution (selectors : List (List Char)) (parents : List Char)
    (separator : List Char) : List Char :=
  List.intercalate separator ((splitOnComma parents).map (fun p =>
    List.intercalate separator (selectors.map (fun c =>
      if c.contains '&' then replaceAmp c (trimChars p)
      else trimChars p ++ [' '] ++ c))))

/-- The cross product `collapse_with_parent_selectors` actually forms:
`parent.token ++ " " ++ child.token`, untrimmed, with no `&`
substitution, offset taken from the parent. -/
def collapse_cross (parents : List Lexeme) (selectors : List Lexeme) :
    List Lexeme :=
  parents.flatMap (fun p =>
    selectors.map (fun c =>
      { token := p.token ++ [' '] ++ c.token, offset := p.offset }))

end Rule

namespace Lib

/-! Embedding of `src/lib.rs` (`compile` and the four style formatters).
`SassTokenizer::parse` prints a few tokens for debugging and returns the
source unchanged (`self.sass.clone()`); tokenization has no observable
effect on the result and no panic path (`char_at` is guarded by
`current_pos < len`), so `parsed` is the source text. -/

/-- Formatter `nested` (`src/lib.rs` line 16): identity. -/
def nested (sass : List Char) : List Char := sass

/-- Formatter `compressed` (`src/lib.rs` line 20):
`replace(" ", "").replace("\n", "")`, i.e. drop every space, then every
newline. -/
def compressed (sass : List Char) : List Char :=
  (sass.filter (fun c => c != ' ')).filter (fun c => c != '\n')

/-- Formatter `expanded` (`src/lib.rs` line 24): identity. -/
def expanded (sass : List Char) : List Char := sass

/-- Formatter `compact` (`src/lib.rs` line 28): identity. -/
def compact (sass : List Char) : List Char := sass

/-- Result of `compile`: the output string, or the `panic!` of the
unknown-style arm. -/
inductive CompileResult where
  | ok (css : List Char)
  | panicked
deriving DecidableEq, Repr

/-- Function `compile` (`src/lib.rs` lines 3-14): match the style string
against the four known styles; any other style panics with
`"Unknown style: ..."`. -/
def compile (sass : List Char) (style : List Char) : CompileResult :=
  if style = "nested".toList then .ok (nested sass)
  else if style = "compressed".toList then .ok (compressed sass)
  else if style = "expanded".toList then .ok (expanded sass)
  else if style = "compact".toList then .ok (compact sass)
  else .panicked

end Lib

namespace Subst

/-! Embedding of `src/substituter.rs` (`Substituter`,
`replace_children_in_scope`, `collate_mixin_args`,
`owned_evaluated_value`).  The event/mixin types are the ones this module
consumes (`Event` with `SassRule`, `SassVariable`, `SassMixin` carrying
parameters and parsed children); `Cow<str>` payloads are `String`. -/

/-- Association-list model of `HashMap<String, V>`: `insert` overwrites an
existing key in place, `get` finds the entry. -/
abbrev StrMap (α : Type) : Type := List (String × α)

/-- Method `HashMap::insert` (the returned previous value is never used). -/
def hmInsert {α : Type} (m : StrMap α) (k : String) (v : α) : StrMap α :=
  if m.any (fun kv => kv.1 = k) then
    m.map (fun kv => if kv.1 = k then (k, v) else kv)
  else m ++ [(k, v)]

/-- Method `HashMap::get`. -/
def hmGet {α : Type} (m : StrMap α) (k : String) : Option α :=
  (m.find? (fun kv => kv.1 = k)).map (fun kv => kv.2)

/-- Struct `SassMixinParameter` (`sass/mixin.rs`, consumed by the substituter):
a name and an optional default value text. -/
structure SassMixinParameter where
  name : String
  default : Option String
deriving DecidableEq, Repr

/-- Struct `SassMixinArgument`: optionally named, with a value text. -/
structure SassMixinArgument where
  name : Option String
  value : String
deriving DecidableEq, Repr

/-- Struct `SassMixinCall`: callee name and arguments. -/
structure SassMixinCall where
  name : String
  arguments : List SassMixinArgument
deriving DecidableEq, Repr

/-- Value parts as the substituter consumes them: the variants of
`src/sass/value_part.rs` with the `NumberValue` payload that
`owned_evaluated_value` updates. -/
inductive SubValuePart where
  | Variable (name : String)
  | String (s : String)
  | Number (nv : Color.NumberValue)
  | Operator (op : VT.Op)
deriving DecidableEq, Repr

mutual
/-- Events from `event.rs` as the substituter matches them. -/
inductive SEvent where
  | Property (name : String) (value : SubValuePart)
  | UnevaluatedProperty (name : String) (value : String)
  | Comment (text : String)
  | Rule (rule : SSassRule)
  | Variable (name : String) (value : String)
  | Mixin (m : SassMixin)
  | MixinCall (c : SassMixinCall)

/-- Struct `SassRule` as the substituter rebuilds it (selectors untouched). -/
inductive SSassRule where
  | mk (selectors : List String) (children : List SEvent)

/-- Struct `SassMixin`: name, parameters, and parsed body children. -/
inductive SassMixin where
  | mk (name : String) (parameters : List SassMixinParameter)
      (children : List SEvent)
end

/-- Field accessor `SSassRule.selectors`. -/
def SSassRule.selectors : SSassRule → List String
  | .mk s _ => s

/-- Field accessor `SSassRule.children`. -/
def SSassRule.children : SSassRule → List SEvent
  | .mk _ c => c

/-- Field accessor `SassMixin.name`. -/
def SassMixin.name : SassMixin → String
  | .mk n _ _ => n

/-- Field accessor `SassMixin.parameters`. -/
def SassMixin.parameters : SassMixin → List SassMixinParameter
  | .mk _ p _ => p

/-- Field accessor `SassMixin.children`. -/
def SassMixin.children : SassMixin → List SEvent
  | .mk _ _ c => c

/-- The expression evaluator (`evaluator.rs` is not among the provided
sources): abstracted as a parameter mapping a value text and the variable
scope to a value part or an error.  The theorems below hold for every
evaluator. -/
abbrev Evaluator : Type :=
  String → StrMap SubValuePart → Except ErrorKind SubValuePart

/-- Function `owned_evaluated_value` (`src/substituter.rs` lines 158-174):
evaluate, then mark a number result as computed. -/
def owned_evaluated_value (ev : Evaluator) (value : String)
    (vars : StrMap SubValuePart) : Except ErrorKind SubValuePart :=
  match ev value vars with
  | .error e => .error e
  | .ok (SubValuePart.Number nv) => .ok (.Number { nv with computed := true })
  | .ok other => .ok other

/-- The `named_arguments` map built by `collate_mixin_args`
(`src/substituter.rs` lines 127-136): every named argument, keyed by its
name (a later duplicate overwrites). -/
def named_arguments (arguments : List SassMixinArgument) : StrMap String :=
  arguments.foldl (fun m a =>
    match a.name with
    | some n => hmInsert m n a.value
    | none => m) []

/-- The per-parameter replacement choice of `collate_mixin_args`
(`src/substituter.rs` lines 143-150): the named argument matching the
parameter name, or else the call's argument at index `i` — whether or not
that argument is named — or else the parameter's default. -/
def param_binding (arguments : List SassMixinArgument) (named : StrMap String)
    (p : SassMixinParameter) (i : Nat) : Option String :=
  ((hmGet named p.name).orElse
    (fun _ => (arguments.get? i).map (fun a => a.value))).orElse
    (fun _ => p.default)

/-- The parameter loop of `collate_mixin_args` (lines 138-153): `i` is the
`enumerate` index, `acc` the `replacements` map. -/
def collate_go (arguments : List SassMixinArgument) (named : StrMap String) :
    Nat → List SassMixinParameter → StrMap SubValuePart →
    Except ErrorKind (StrMap SubValuePart)
  | _, [], acc => .ok acc
  | i, p :: ps, acc =>
    match param_binding arguments named p i with
    | some v => collate_go arguments named (i + 1) ps (hmInsert acc p.name (.String v))
    | none => .error .ExpectedMixinArgument

/-- Function `collate_mixin_args` (`src/substituter.rs` lines 123-156). -/
def collate_mixin_args (parameters : List SassMixinParameter)
    (arguments : List SassMixinArgument) :
    Except ErrorKind (StrMap SubValuePart) :=
  collate_go arguments (named_arguments arguments) 0 parameters []

/-- Function `replace_children_in_scope` (`src/substituter.rs` lines
66-121), with fuel bounding the recursion depth into nested rule bodies
and mixin expansions (a self-including mixin recurses forever in the Rust
code; `none` models that the call does not return). -/
def replace_children_in_scope (ev : Evaluator) (fuel : Nat)
    (children : List SEvent) (local_variables : StrMap SubValuePart)
    (local_mixins : StrMap SassMixin) :
    Option (Except ErrorKind (List SEvent)) :=
  match children with
  | [] => some (.ok [])
  | c :: rest =>
    match c with
    | .Variable name value =>
      match owned_evaluated_value ev value local_variables with
      | .error e => some (.error e)
      | .ok val =>
        replace_children_in_scope ev fuel rest
          (hmInsert local_variables name val) local_mixins
    | .UnevaluatedProperty name value =>
      match ev value local_variables with
      | .error e => some (.error e)
      | .ok v =>
        match replace_children_in_scope ev fuel rest local_variables
            local_mixins with
        | none => none
        | some (.error e) => some (.error e)
        | some (.ok res) => some (.ok (.Property name v :: res))
    | .Rule rule =>
      match fuel with
      | 0 => none
      | fuel' + 1 =>
        match replace_children_in_scope ev fuel' rule.children local_variables
            local_mixins with
        | none => none
        | some (.error e) => some (.error e)
        | some (.ok inner) =>
          match replace_children_in_scope ev (fuel' + 1) rest local_variables
              local_mixins with
          | none => none
          | some (.error e) => some (.error e)
          | some (.ok res) =>
            some (.ok (.Rule (SSassRule.mk rule.selectors inner) :: res))
    | .MixinCall call =>
      match hmGet local_mixins call.name with
      | none => some (.error .ExpectedMixin)
      | some mixin =>
        match collate_mixin_args mixin.parameters call.arguments with
        | .error e => some (.error e)
        | .ok repl =>
          match fuel with
          | 0 => none
          | fuel' + 1 =>
            match replace_children_in_scope ev fuel' mixin.children repl
                local_mixins with
            | none => none
            | some (.error e) => some (.error e)
            | some (.ok res) =>
              match replace_children_in_scope ev (fuel' + 1) rest
                  local_variables local_mixins with
              | none => none
              | some (.error e) => some (.error e)
              | some (.ok res2) => some (.ok (res ++ res2))
    | other =>
      match replace_children_in_scope ev fuel rest local_variables
          local_mixins with
      | none => none
      | some (.error e) => some (.error e)
      | some (.ok res) => some (.ok (other :: res))
termination_by (fuel, children.length)
decreasing_by
  all_goals simp_wf
  all_goals simp [Prod.lex_def]

/-- The substituter's symbol-table state: the `variables` and `mixins`
fields of `Substituter` (the first renamed `vars`: `variables` is a
reserved word here). -/
structure SubstState where
  vars : StrMap SubValuePart
  mixins : StrMap SassMixin

/-- Result of one `Substituter::next` call: iterator exhaustion, the
`unimplemented!` panic of a top-level `MixinCall`, fuel exhaustion inside
a rule body, or an item together with the updated state and the remaining
input events. -/
inductive NextRes where
  | done
  | panicked
  | fuelOut
  | item (out : Except ErrorKind SEvent) (st : SubstState)
      (rest : List (Except ErrorKind SEvent))

/-- Method `Substituter::next` (`src/substituter.rs` lines 34-63): record
variables and mixins (recursing to the next event), substitute into a
rule's children from a snapshot of both tables, panic on a top-level mixin
call, and pass everything else through. -/
def substNext (ev : Evaluator) (fuel : Nat) :
    SubstState → List (Except ErrorKind SEvent) → NextRes
  | _, [] => .done
  | st, e :: rest =>
    match e with
    | .error err => .item (.error err) st rest
    | .ok (.Variable name value) =>
      match owned_evaluated_value ev value st.vars with
      | .ok v =>
        substNext ev fuel
          { st with vars := hmInsert st.vars name v } rest
      | .error er => .item (.error er) st rest
    | .ok (.Mixin m) =>
      substNext ev fuel { st with mixins := hmInsert st.mixins m.name m } rest
    | .ok (.Rule rule) =>
      match replace_children_in_scope ev fuel rule.children st.vars
          st.mixins with
      | none => .fuelOut
      | some (.error e') => .item (.error e') st rest
      | some (.ok children') =>
        .item (.ok (.Rule (SSassRule.mk rule.selectors children'))) st rest
    | .ok (.MixinCall _) => .panicked
    | .ok other => .item (.ok other) st rest

/-- Everything an exhaustive driver of the substituter iterator observes:
the items in order, ending normally or in a panic or fuel exhaustion. -/
inductive SubstRunOut where
  | finished (outs : List (Except ErrorKind SEvent))
  | panicked (outs : List (Except ErrorKind SEvent))
  | fuelOut (outs : List (Except ErrorKind SEvent))

/-- Prepend one emitted item to a run result. -/
def consOut (x : Except ErrorKind SEvent) : SubstRunOut → SubstRunOut
  | .finished xs => .finished (x :: xs)
  | .panicked xs => .panicked (x :: xs)
  | .fuelOut xs => .fuelOut (x :: xs)

/-- Driver: call `substNext` until `None`, with step fuel `n` (each item
consumes at least one input event, so `events.length + 1` steps always
suffice). -/
def substIter (ev : Evaluator) (fuel : Nat) :
    Nat → SubstState → List (Except ErrorKind SEvent) → SubstRunOut
  | 0, _, _ => .fuelOut []
  | n + 1, st, events =>
    match substNext ev fuel st events with
    | .done => .finished []
    | .panicked => .panicked []
    | .fuelOut => .fuelOut []
    | .item out st2 rest => consOut out (substIter ev fuel n st2 rest)

/-- Collect the substituter's whole output stream. -/
def substRun (ev : Evaluator) (fuel : Nat) (st : SubstState)
    (events : List (Except ErrorKind SEvent)) : SubstRunOut :=
  substIter ev fuel (events.length + 1) st events

/-- Binding rule as claim C1 states it: a named argument matching the
parameter's name; otherwise a positional argument at the parameter's
declaration-order index — named arguments do not satisfy a parameter
positionally, so an argument at that index carrying a name does not
count — otherwise the default.  Written from the claim's words, to be
compared with `param_binding`. -/
def spec_param_binding (arguments : List SassMixinArgument)
    (p : SassMixinParameter) (i : Nat) : Option String :=
  match arguments.find? (fun a => a.name = some p.name) with
  | some a => some a.value
  | none =>
    match arguments.get? i with
    | some { name := none, value := v } => some v
    | _ => p.default

/-- The replacements map `collate_mixin_args` is expected to build: one
entry per parameter in declaration order, bound by `param_binding` at the
parameter's declaration index (`k` is the index of the first listed
parameter). -/
def collate_expected (arguments : List SassMixinArgument)
    (named : StrMap String) : Nat → List SassMixinParameter →
    StrMap SubValuePart
  | _, [] => []
  | k, p :: ps =>
    (p.name, SubValuePart.String
        ((param_binding arguments named p k).getD (""))) ::
      collate_expected arguments named (k + 1) ps

end Subst

namespace Tok

/-! Embedding of `Tokenizer::next_mixin` (`src/tokenizer.rs` lines
339-379) with the `Toker` helpers it calls.  `tokenizer_utils.rs` is not
among the provided sources; each helper is modelled from its uses in
`src/tokenizer.rs` and the spec's description, as noted per definition. -/

/-- Whitespace as the source tokenizer's `skip_leading_whitespace` sees it
(modelled: ASCII space, newline, tab, carriage return). -/
def tok_is_whitespace (c : Char) : Bool :=
  c = ' ' || c = '\n' || c = '\t' || c = '\r'

/-- Modelled from its name and use: the byte predicate
`isnt_end_curly_brace` that `next_mixin` scans the body with.  Whatever
character class it is, it must reject `'}'` — a scan that accepted `'}'`
would run to the end of input and the following `eat("}")` could never
succeed — and a byte predicate cannot count brace depth. -/
def isnt_end_curly_brace (c : Char) : Bool := c != '}'

/-- Modelled from its uses on identifiers: `valid_name_char`. -/
def valid_name_char (c : Char) : Bool := c.isAlphanum || c = '-' || c = '_'

/-- Modelled from its uses on argument lists: `valid_mixin_arg_char`
excludes the list delimiters (the theorems below only exercise empty
argument lists, where the predicate is irrelevant). -/
def valid_mixin_arg_char (c : Char) : Bool :=
  !(c = ',' || c = ')' || c = '(' || c = '{' || c = '}' || c = ';')

/-- The `Toker`: source characters and current offset. -/
structure Toker where
  s : List Char
  offset : Nat
deriving DecidableEq, Repr

/-- Method `Toker::limit`: the input length. -/
def Toker.limit (t : Toker) : Nat := t.s.length

/-- Method `Toker::scan_while_or_end(i, pred)`: the number of consecutive bytes
from `i` satisfying `pred` (stopping at the end of input). -/
def Toker.scan_while_or_end (t : Toker) (i : Nat) (pred : Char → Bool) : Nat :=
  ((t.s.drop i).takeWhile pred).length

/-- Method `Toker::eat`: succeed and advance past the needle when the input at
the offset starts with it; fail with the offset unchanged otherwise. -/
def Toker.eat (t : Toker) (needle : List Char) : Option Toker :=
  if (t.s.drop t.offset).take needle.length = needle then
    some { t with offset := t.offset + needle.length }
  else none

/-- Method `Toker::skip_leading_whitespace`: advance past the whitespace run. -/
def Toker.skip_leading_whitespace (t : Toker) : Toker :=
  { t with
    offset := t.offset + ((t.s.drop t.offset).takeWhile tok_is_whitespace).length }

/-- Modelled from the spec: `Toker::tokenize_list` ("Mixin
argument/parameter lists are split on top-level commas with a
character-class predicate per element", spec 4.C).  Elements are runs of
predicate characters separated by commas, up to and including the
terminator; `none` models the error paths.  Only the immediate-terminator
case (empty argument list) is exercised by the theorems below. -/
def tokenize_list (term : List Char) (pred : Char → Bool) :
    Nat → Toker → Option (List (List Char) × Toker)
  | 0, _ => none
  | fuel + 1, t =>
    let t1 := t.skip_leading_whitespace
    match t1.eat term with
    | some t2 => some ([], t2)
    | none =>
      let el := (t1.s.drop t1.offset).takeWhile pred
      if el.isEmpty then none
      else
        let t2 : Toker := { t1 with offset := t1.offset + el.length }
        let t3 := t2.skip_leading_whitespace
        match t3.eat [','] with
        | some t4 =>
          (tokenize_list term pred fuel t4).map (fun pr => (el :: pr.1, pr.2))
        | none =>
          match t3.eat term with
          | some t4 => some ([el], t4)
          | none => none

/-- Result of `next_mixin`: the mixin's name, raw argument texts, body
slice and the advanced toker, or an error (`try!` propagation; the
helpers' own error kinds are not in the provided sources, so
`TokenizerError` stands in — no theorem depends on the error paths). -/
inductive MixinOut where
  | ok (name : List Char) (arguments : List (List Char)) (body : List Char)
      (t : Toker)
  | error (kind : ErrorKind)
deriving DecidableEq, Repr

/-- Method `Tokenizer::next_mixin` (`src/tokenizer.rs` lines 339-379),
entered with the offset just past `"@mixin "`.  The `while i < limit`
loop body runs once and returns; falling past it yields `UnexpectedEof`.
The body text is captured by `scan_while_or_end(i, isnt_end_curly_brace)`
— a character-class scan that stops at the first `}`. -/
def next_mixin (t : Toker) : MixinOut :=
  let name_beginning := t.offset
  if name_beginning < t.limit then
    let name := (t.s.drop name_beginning).takeWhile valid_name_char
    let t1 : Toker := { t with offset := name_beginning + name.length }
    match t1.eat ['('] with
    | none => .error .TokenizerError
    | some t2 =>
      match tokenize_list [')'] valid_mixin_arg_char (t2.s.length + 1) t2 with
      | none => .error .TokenizerError
      | some (args, t3) =>
        let t4 := t3.skip_leading_whitespace
        match t4.eat ['{'] with
        | none => .error .TokenizerError
        | some t5 =>
          let t6 := t5.skip_leading_whitespace
          let body := (t6.s.drop t6.offset).takeWhile isnt_end_curly_brace
          let t7 : Toker := { t6 with offset := t6.offset + body.length }
          match t7.eat ['}'] with
          | none => .error .TokenizerError
          | some t8 => .ok name args body t8
  else .error .UnexpectedEof

end Tok

/-! Helper lemmas shared by several claims. -/

theorem takeWhile_append_head_false {α : Type} {f : α → Bool} {l1 l2 : List α}
    (h1 : ∀ c ∈ l1, f c = true) (h2 : ∀ c ∈ l2.take 1, f c = false) :
    (l1 ++ l2).takeWhile f = l1 := by
  induction l1 with
  | nil =>
    cases l2 with
    | nil => rfl
    | cons c t =>
      simp only [List.nil_append, List.takeWhile_cons]
      simp [h2 c (by simp)]
  | cons c t ih =>
    simp only [List.cons_append, List.takeWhile_cons, h1 c (by simp), if_true]
    exact congrArg (c :: ·) (ih (fun x hx => h1 x (by simp [hx])))

theorem takeWhile_all_true {α : Type} {f : α → Bool} {l : List α}
    (h : ∀ c ∈ l, f c = true) : l.takeWhile f = l := by
  induction l with
  | nil => rfl
  | cons c t ih =>
    simp only [List.takeWhile_cons, h c (by simp)]
    exact congrArg (c :: ·) (ih (fun x hx => h x (by simp [hx])))

theorem vt_operator_not_number {c : Char} (h : VT.is_operator c = true) :
    VT.is_number c = false := by
  simp only [VT.is_operator, Bool.or_eq_true, decide_eq_true_eq] at h
  rcases h with ((((((h | h) | h) | h) | h) | h) | h) | h <;> subst h <;> decide

theorem vt_is_number_not_operator {c : Char} (h : VT.is_number c = true) :
    VT.is_operator c = false := by
  cases hoc : VT.is_operator c with
  | false => rfl
  | true => rw [vt_operator_not_number hoc] at h; cases h

theorem vt_is_number_not_space {c : Char} (h : VT.is_number c = true) :
    VT.is_space c = false := by
  simp only [VT.is_number, Bool.or_eq_true, Bool.and_eq_true,
    decide_eq_true_eq] at h
  simp only [VT.is_space, decide_eq_false_iff_not]
  rintro rfl
  rcases h with ⟨h1, _⟩ | h3
  · exact absurd h1 (by decide)
  · exact absurd h3 (by decide)

/-! Claim C10. -/

/-- C10: the value tokenizer is not total — on the value string `"a "`
(trailing space) the second `next()` call skips the whitespace up to the
input length and then indexes `bytes[2]` out of bounds, and on `"1.2.3"`
the consumed digit run fails the `f32` parse and the `unwrap` panics.  The
claim that `next()` always terminates with parts then `None` without
panicking is refuted at these inputs. -/
theorem c10_value_tokenizer_panics :
    VT.tokenizeAll ['a', ' '] = .panicked [.String ['a']] ∧
    VT.vnext ['a', ' '] 1 = .panicked ∧
    VT.tokenizeAll ['1', '.', '2', '.', '3'] = .panicked [] := by
  refine ⟨by decide, by decide, by decide⟩

/-! Claim C6. -/

/-- C6, counterexample: on input `"10px"` the value tokenizer emits TWO
parts — `Number 10` followed by the separate `String "px"` — rather than a
single `Number` part with the letter run attached as its unit (the
tokenizer's `parse` has no unit-attachment step, and this commit's
`ValuePart::Number` carries a bare `f32` with no unit field). -/
theorem c6_counterexample :
    VT.tokenizeAll ['1', '0', 'p', 'x'] =
      .ok [.Number (VT.ratOfRun ['1', '0']), .String ['p', 'x']] ∧
    VT.ratOfRun ['1', '0'] = 10 := by
  constructor
  · rfl
  · have h : VT.ratOfRun ['1', '0'] =
        ((10 : Nat) : ℚ) + ((0 : Nat) : ℚ) / (10 : ℚ) ^ (0 : Nat) := rfl
    rw [h]; norm_num

/-- C6, amended: when the next part starts with a digit or `.`, the
tokenizer consumes the `[0-9.]` run and returns a `Number` part carrying
only the parsed scalar (there is no unit field and no attachment step);
an immediately following run of non-space characters — letters included —
is returned by the next call as a separate `String` part.  Stated for an
input that is a digit run followed by a non-space tail. -/
theorem c6_number_then_string
    (c0 : Char) (d : List Char) (c : Char) (l : List Char)
    (hc0 : VT.is_number c0 = true)
    (hd : ∀ x ∈ d, VT.is_number x = true)
    (hval : VT.valid_f32_run (c0 :: d) = true)
    (hcn : VT.is_number c = false)
    (hco : VT.is_operator c = false)
    (hcd : c ≠ '$')
    (hcs : VT.is_space c = false)
    (hl : ∀ x ∈ l, VT.is_space x = false) :
    VT.vnext ((c0 :: d) ++ c :: l) 0 =
      .yielded (.Number (VT.ratOfRun (c0 :: d))) (d.length + 1) ∧
    VT.vnext ((c0 :: d) ++ c :: l) (d.length + 1) =
      .yielded (.String (c :: l)) (d.length + 1 + (l.length + 1)) ∧
    VT.vnext ((c0 :: d) ++ c :: l) (d.length + 1 + (l.length + 1)) =
      .finished := by
  have hs0 : VT.is_space c0 = false := vt_is_number_not_space hc0
  have hop0 : VT.is_operator c0 = false := vt_is_number_not_operator hc0
  have hlen : ((c0 :: d) ++ c :: l).length = d.length + 1 + (l.length + 1) := by
    simp [List.length_append]; omega
  have hrun2 : (d ++ c :: l).takeWhile VT.is_number = d :=
    takeWhile_append_head_false hd
      (fun x hx => by simp at hx; subst hx; exact hcn)
  have hdrop' : (c0 :: (d ++ c :: l)).drop (d.length + 1) = c :: l := by
    have h := List.drop_left (c0 :: d) (c :: l)
    simp only [List.length_cons, List.cons_append] at h
    exact h
  have hsp0 : (c0 :: (d ++ c :: l)).takeWhile VT.is_space = [] := by
    simp [List.takeWhile_cons, hs0]
  have hspc : (c :: l).takeWhile VT.is_space = [] := by
    simp [List.takeWhile_cons, hcs]
  refine ⟨?_, ?_, ?_⟩
  · simp only [VT.vnext, VT.parse, VT.skip_leading_whitespace, VT.scan_while,
      List.cons_append, List.drop_zero, hsp0, List.length_nil, Nat.add_zero]
    simp [hop0, hc0, hrun2, hval]
  · have hns : (c :: l).takeWhile VT.isnt_space = c :: l :=
      takeWhile_all_true (fun x hx => by
        rcases List.mem_cons.mp hx with rfl | hx
        · simp [VT.isnt_space, hcs]
        · simp [VT.isnt_space, hl x hx])
    simp only [VT.vnext, VT.parse, VT.skip_leading_whitespace, VT.scan_while,
      List.cons_append, hdrop', hspc, List.length_nil, Nat.add_zero]
    rw [if_pos (by simp only [List.length_cons, List.length_append]; omega)]
    simp [hco, hcn, hcd, hns]
  · simp only [VT.vnext, List.cons_append]
    rw [if_neg (by simp only [List.length_cons, List.length_append]; omega)]

/-! Claim C7. -/

/-- C7, counterexample: `from_hex` never examines the leading character,
so the 4-character string `"abcd"` (no `#`) yields a color (`b`, `c`, `d`
scaled by 17) instead of an error; and on `"#xyz"` — length 4 but with
non-hex-digit content — the `unwrap` of the failed `from_str_radix`
panics instead of returning an error. -/
theorem c7_counterexample :
    Color.from_hex ['a', 'b', 'c', 'd'] =
      .ok { red := 187, green := 204, blue := 221,
            original := ['a', 'b', 'c', 'd'] } ∧
    Color.from_hex ['#', 'x', 'y', 'z'] = .panicked := by
  exact ⟨by decide, by decide⟩

/-- C7, amended: `from_hex` returns a `ColorValue` exactly when the
string's length is 4 (resp. 7) and each single-character (resp.
two-character) channel slice after the first character parses under
`i32::from_str_radix(_, 16)` — the leading character is never examined;
a 4-length form's channels are the digit values scaled by 17; lengths
other than 4 and 7 yield the `InvalidColor` error; and a length-4 or
length-7 string with an unparsable slice panics rather than erroring. -/
theorem c7_from_hex_cases :
    (∀ hex : List Char, hex.length ≠ 4 → hex.length ≠ 7 →
      Color.from_hex hex = .error .InvalidColor) ∧
    (∀ c0 x y z : Char, ∀ r g b : ℤ,
      Color.from_str_radix16 [x] = some r →
      Color.from_str_radix16 [y] = some g →
      Color.from_str_radix16 [z] = some b →
      Color.from_hex [c0, x, y, z] =
        .ok { red := r * 17, green := g * 17, blue := b * 17,
              original := [c0, x, y, z] }) ∧
    (∀ c0 x y z : Char,
      Color.from_str_radix16 [x] = none ∨
      Color.from_str_radix16 [y] = none ∨
      Color.from_str_radix16 [z] = none →
      Color.from_hex [c0, x, y, z] = .panicked) ∧
    (∀ c0 x1 x2 y1 y2 z1 z2 : Char, ∀ r g b : ℤ,
      Color.from_str_radix16 [x1, x2] = some r →
      Color.from_str_radix16 [y1, y2] = some g →
      Color.from_str_radix16 [z1, z2] = some b →
      Color.from_hex [c0, x1, x2, y1, y2, z1, z2] =
        .ok { red := r, green := g, blue := b,
              original := [c0, x1, x2, y1, y2, z1, z2] }) ∧
    (∀ c0 x1 x2 y1 y2 z1 z2 : Char,
      Color.from_str_radix16 [x1, x2] = none ∨
      Color.from_str_radix16 [y1, y2] = none ∨
      Color.from_str_radix16 [z1, z2] = none →
      Color.from_hex [c0, x1, x2, y1, y2, z1, z2] = .panicked) := by
  refine ⟨?_, ?_, ?_, ?_, ?_⟩
  · intro hex h4 h7
    rw [Color.from_hex, if_neg h4, if_neg h7]
  · intro c0 x y z r g b hx hy hz
    simp [Color.from_hex, hx, hy, hz]
  · intro c0 x y z h
    rcases hX : Color.from_str_radix16 [x] with _ | rx <;>
      rcases hY : Color.from_str_radix16 [y] with _ | ry <;>
        rcases hZ : Color.from_str_radix16 [z] with _ | rz <;>
          simp [Color.from_hex, hX, hY, hZ]
    rcases h with h | h | h
    · rw [hX] at h; cases h
    · rw [hY] at h; cases h
    · rw [hZ] at h; cases h
  · intro c0 x1 x2 y1 y2 z1 z2 r g b hx hy hz
    simp [Color.from_hex, hx, hy, hz]
  · intro c0 x1 x2 y1 y2 z1 z2 h
    rcases hX : Color.from_str_radix16 [x1, x2] with _ | rx <;>
      rcases hY : Color.from_str_radix16 [y1, y2] with _ | ry <;>
        rcases hZ : Color.from_str_radix16 [z1, z2] with _ | rz <;>
          simp [Color.from_hex, hX, hY, hZ]
    rcases h with h | h | h
    · rw [hX] at h; cases h
    · rw [hY] at h; cases h
    · rw [hZ] at h; cases h

/-- C7 witness: the amended characterization applied at concrete inputs —
a wrong length errors, `"#0ff"` builds a color (channels scaled by 17),
`"#g00"` panics, `"#ff0000"` builds a color, `"#ff00zz"` panics. -/
theorem c7_from_hex_cases_witness :
    Color.from_hex ['#', 'f', 'f'] = .error .InvalidColor ∧
    Color.from_hex ['#', '0', 'f', 'f'] =
      .ok { red := 0 * 17, green := 15 * 17, blue := 15 * 17,
            original := ['#', '0', 'f', 'f'] } ∧
    Color.from_hex ['#', 'g', '0', '0'] = .panicked ∧
    Color.from_hex ['#', 'f', 'f', '0', '0', '0', '0'] =
      .ok { red := 255, green := 0, blue := 0,
            original := ['#', 'f', 'f', '0', '0', '0', '0'] } ∧
    Color.from_hex ['#', 'f', 'f', '0', '0', 'z', 'z'] = .panicked :=
  ⟨c7_from_hex_cases.1 ['#', 'f', 'f'] (by decide) (by decide),
   c7_from_hex_cases.2.1 '#' '0' 'f' 'f' 0 15 15 (by decide) (by decide)
     (by decide),
   c7_from_hex_cases.2.2.1 '#' 'g' '0' '0' (Or.inl (by decide)),
   c7_from_hex_cases.2.2.2.1 '#' 'f' 'f' '0' '0' '0' '0' 255 0 0 (by decide)
     (by decide) (by decide),
   c7_from_hex_cases.2.2.2.2 '#' 'f' 'f' '0' '0' 'z' 'z'
     (Or.inr (Or.inr (by decide)))⟩

/-! Claim C2. -/

/-- C2, counterexample: `combine_colors` does not clamp at all — adding
`#ff0000` (a color `from_hex` itself produced) to itself yields a red
channel of 510, above 255 — and `apply_math` clamps only from above —
`#000000 - 1` yields channels of `-1`, below 0.  The claim that every
channel of every constructed or combined color lies in `[0, 255]` fails
at these inputs. -/
theorem c2_counterexample :
    Color.from_hex ['#', 'f', 'f', '0', '0', '0', '0'] =
      .ok { red := 255, green := 0, blue := 0,
            original := ['#', 'f', 'f', '0', '0', '0', '0'] } ∧
    Color.combine_colors
        { red := 255, green := 0, blue := 0,
          original := ['#', 'f', 'f', '0', '0', '0', '0'] } .Plus
        { red := 255, green := 0, blue := 0,
          original := ['#', 'f', 'f', '0', '0', '0', '0'] } =
      .ok (Color.from_rgb 510 0 0) ∧
    (Color.from_rgb 510 0 0).red = 510 ∧
    Color.apply_math
        { red := 0, green := 0, blue := 0,
          original := ['#', '0', '0', '0', '0', '0', '0'] } .Minus
        { scalar := 1, unit := none, computed := false } =
      .ok (Color.from_rgb (-1) (-1) (-1)) ∧
    (Color.from_rgb (-1) (-1) (-1)).red = -1 := by
  refine ⟨by decide, ?_, by decide, ?_, by decide⟩
  · simp [Color.combine_colors, Color.opMath, Bind.bind, Except.bind,
      Pure.pure, Except.pure]
    norm_num [Color.f32_as_i32, Color.ratTrunc]
  · simp [Color.apply_math, Color.opMath, Bind.bind, Except.bind,
      Pure.pure, Except.pure]
    norm_num [Color.f32_as_i32, Color.ratTrunc, Color.from_rgb]
    rw [show (⌈(-1 : ℚ)⌉ : ℤ) = -1 by
      rw [show ((-1 : ℚ)) = -(1 : ℚ) from rfl, Int.ceil_neg, Int.floor_one]]
    decide

theorem hexDigitVal_le_15 {c : Char} {n : Nat}
    (h : Color.hexDigitVal c = some n) : n ≤ 15 := by
  simp only [Color.hexDigitVal] at h
  split_ifs at h with h1 h2 h3
  all_goals simp only [Option.some.injEq] at h
  all_goals try simp only [Bool.and_eq_true, decide_eq_true_eq] at *
  all_goals omega

theorem from_str_radix16_one {x : Char} {r : ℤ}
    (h : Color.from_str_radix16 [x] = some r) : 0 ≤ r ∧ r ≤ 15 := by
  by_cases hp : x = '+'
  · subst hp; simp [Color.from_str_radix16, Color.hexDigitsVal] at h
  by_cases hm : x = '-'
  · subst hm; simp [Color.from_str_radix16, Color.hexDigitsVal] at h
  simp only [Color.from_str_radix16, if_neg hp, if_neg hm,
    Color.hexDigitsVal, List.mapM_cons, List.mapM_nil] at h
  rcases hdx : Color.hexDigitVal x with _ | d
  · rw [hdx] at h; simp at h
  · rw [hdx] at h
    simp at h
    subst h
    have := hexDigitVal_le_15 hdx
    omega

theorem from_str_radix16_two {x y : Char} {r : ℤ}
    (hx : (Color.hexDigitVal x).isSome = true)
    (h : Color.from_str_radix16 [x, y] = some r) : 0 ≤ r ∧ r ≤ 255 := by
  by_cases hp : x = '+'
  · subst hp; simp [Color.hexDigitVal] at hx
  by_cases hm : x = '-'
  · subst hm; simp [Color.hexDigitVal] at hx
  simp only [Color.from_str_radix16, if_neg hp, if_neg hm,
    Color.hexDigitsVal, List.mapM_cons, List.mapM_nil] at h
  rcases hdx : Color.hexDigitVal x with _ | dx
  · rw [hdx] at h; simp at h
  rcases hdy : Color.hexDigitVal y with _ | dy
  · rw [hdx, hdy] at h; simp at h
  rw [hdx, hdy] at h
  simp at h
  subst h
  have h1 := hexDigitVal_le_15 hdx
  have h2 := hexDigitVal_le_15 hdy
  omega

/-- C2, amended: construction from a hex literal whose characters after
the first are hex digits yields channels in `[0, 255]` (without that
restriction a signed two-character slice such as `"-5"` can produce a
negative channel), and `apply_math` caps every channel from above at 255
(`cmp::min`) but has no lower cap; `combine_colors` (see the
counterexample) applies the operator with no clamping at all. -/
theorem c2_channel_bounds :
    (∀ (hex : List Char) (cv : Color.ColorValue),
      (∀ x ∈ hex.drop 1, (Color.hexDigitVal x).isSome = true) →
      Color.from_hex hex = .ok cv →
      (0 ≤ cv.red ∧ cv.red ≤ 255) ∧ (0 ≤ cv.green ∧ cv.green ≤ 255) ∧
        (0 ≤ cv.blue ∧ cv.blue ≤ 255)) ∧
    (∀ (c : Color.ColorValue) (op : VT.Op) (nv : Color.NumberValue)
        (res : Color.ColorValue),
      Color.apply_math c op nv = .ok res →
      res.red ≤ 255 ∧ res.green ≤ 255 ∧ res.blue ≤ 255) := by
  constructor
  · intro hex cv hd hok
    by_cases h4 : hex.length = 4
    · rcases hex with _ | ⟨c0, _ | ⟨x, _ | ⟨y, _ | ⟨z, _ | ⟨w, t⟩⟩⟩⟩⟩ <;>
        simp only [List.length_cons, List.length_nil] at h4 <;> try omega
      have hdx : (Color.hexDigitVal x).isSome = true := hd x (by simp)
      have hdy : (Color.hexDigitVal y).isSome = true := hd y (by simp)
      have hdz : (Color.hexDigitVal z).isSome = true := hd z (by simp)
      rcases hX : Color.from_str_radix16 [x] with _ | rx <;>
        rcases hY : Color.from_str_radix16 [y] with _ | ry <;>
          rcases hZ : Color.from_str_radix16 [z] with _ | rz <;>
            simp only [Color.from_hex, List.length_cons, List.length_nil,
              List.drop_succ_cons, List.drop_zero, List.take_succ_cons,
              List.take_zero, hX, hY, hZ, if_pos, reduceIte] at hok <;>
              try exact Color.FromHexResult.noConfusion hok
      obtain ⟨hx0, hx15⟩ := from_str_radix16_one hX
      obtain ⟨hy0, hy15⟩ := from_str_radix16_one hY
      obtain ⟨hz0, hz15⟩ := from_str_radix16_one hZ
      injection hok with h
      subst h
      refine ⟨⟨?_, ?_⟩, ⟨?_, ?_⟩, ?_, ?_⟩ <;> dsimp only <;> omega
    by_cases h7 : hex.length = 7
    · rcases hex with _ | ⟨c0, _ | ⟨x1, _ | ⟨x2, _ | ⟨y1, _ | ⟨y2, _ | ⟨z1,
        _ | ⟨z2, _ | ⟨w, t⟩⟩⟩⟩⟩⟩⟩⟩ <;>
        simp only [List.length_cons, List.length_nil] at h7 <;> try omega
      have hdx : (Color.hexDigitVal x1).isSome = true := hd x1 (by simp)
      have hdy : (Color.hexDigitVal y1).isSome = true := hd y1 (by simp)
      have hdz : (Color.hexDigitVal z1).isSome = true := hd z1 (by simp)
      rcases hX : Color.from_str_radix16 [x1, x2] with _ | rx <;>
        rcases hY : Color.from_str_radix16 [y1, y2] with _ | ry <;>
          rcases hZ : Color.from_str_radix16 [z1, z2] with _ | rz <;>
            simp only [Color.from_hex, List.length_cons, List.length_nil,
              List.drop_succ_cons, List.drop_zero, List.take_succ_cons,
              List.take_zero, hX, hY, hZ, reduceIte] at hok <;>
              try exact Color.FromHexResult.noConfusion hok
      obtain ⟨hx0, hx255⟩ := from_str_radix16_two hdx hX
      obtain ⟨hy0, hy255⟩ := from_str_radix16_two hdy hY
      obtain ⟨hz0, hz255⟩ := from_str_radix16_two hdz hZ
      injection hok with h
      subst h
      refine ⟨⟨?_, ?_⟩, ⟨?_, ?_⟩, ?_, ?_⟩ <;> dsimp only <;> omega
    · rw [Color.from_hex, if_neg h4, if_neg h7] at hok
      exact Color.FromHexResult.noConfusion hok
  · intro c op nv res h
    rcases hR : Color.opMath op (c.red : ℚ) nv.scalar with e | r <;>
      rcases hG : Color.opMath op (c.green : ℚ) nv.scalar with e2 | g <;>
        rcases hB : Color.opMath op (c.blue : ℚ) nv.scalar with e3 | b <;>
          simp only [Color.apply_math, hR, hG, hB, Bind.bind, Except.bind,
            Pure.pure, Except.pure, reduceCtorEq] at h
    injection h with h
    subst h
    refine ⟨?_, ?_, ?_⟩ <;> dsimp only [Color.from_rgb] <;>
      exact min_le_right _ _

/-- C2 witness: the amended theorem applied at the construction `"#0ff"`
and at the `apply_math` call `#000000 + 0`. -/
theorem c2_channel_bounds_witness :
    ((0 ≤ (0 : ℤ) ∧ (0 : ℤ) ≤ 255) ∧ (0 ≤ (255 : ℤ) ∧ (255 : ℤ) ≤ 255) ∧
      (0 ≤ (255 : ℤ) ∧ (255 : ℤ) ≤ 255)) ∧
    (min (Color.f32_as_i32 (((0 : ℤ) : ℚ) + 0)) 255 ≤ 255 ∧
      min (Color.f32_as_i32 (((0 : ℤ) : ℚ) + 0)) 255 ≤ 255 ∧
      min (Color.f32_as_i32 (((0 : ℤ) : ℚ) + 0)) 255 ≤ 255) :=
  ⟨c2_channel_bounds.1 ['#', '0', 'f', 'f']
    { red := 0, green := 255, blue := 255, original := ['#', '0', 'f', 'f'] }
    (by decide) (by decide),
   c2_channel_bounds.2 { red := 0, green := 0, blue := 0, original := [] }
    .Plus { scalar := 0, unit := none, computed := false }
    (Color.from_rgb (min (Color.f32_as_i32 (((0 : ℤ) : ℚ) + 0)) 255)
      (min (Color.f32_as_i32 (((0 : ℤ) : ℚ) + 0)) 255)
      (min (Color.f32_as_i32 (((0 : ℤ) : ℚ) + 0)) 255)) rfl⟩

/-! Claim C3. -/

theorem ruleWeight_lt_of_mem_child_rules {cr r : Rule.SassRule}
    (h : cr ∈ r.child_rules) : Rule.ruleWeight cr < Rule.ruleWeight r := by
  have hmem : Rule.Node.Rule cr ∈ r.children := by
    rcases List.mem_filterMap.mp h with ⟨n, hn, he⟩
    cases n with
    | Rule rule => simp only [Option.some.injEq] at he; subst he; exact hn
    | Property a b => simp at he
  have hle : Rule.nodeWeight (Rule.Node.Rule cr) ≤ Rule.nodesWeight r.children :=
    Rule.nodeWeight_le_nodesWeight hmem
  cases r with
  | mk sel ch =>
    simp only [Rule.SassRule.children] at hle
    calc Rule.ruleWeight cr = Rule.nodeWeight (Rule.Node.Rule cr) := rfl
      _ ≤ Rule.nodesWeight ch := hle
      _ < 1 + Rule.nodesWeight ch := Nat.lt_one_add_iff.mpr le_rfl
      _ = Rule.ruleWeight (Rule.SassRule.mk sel ch) := rfl

theorem mem_collapseList {r' : Rule.SassRule} :
    ∀ {rules : List Rule.SassRule} {parents : List Rule.Lexeme},
      r' ∈ Rule.SassRule.collapseList rules parents →
      ∃ cr ∈ rules, r' ∈ cr.collapse_with_parent_selectors parents := by
  intro rules
  induction rules with
  | nil =>
    intro parents h
    simp only [Rule.SassRule.collapseList, List.not_mem_nil] at h
  | cons a as iha =>
    intro parents h
    simp only [Rule.SassRule.collapseList, List.mem_append] at h
    rcases h with h | h
    · exact ⟨a, by simp, h⟩
    · obtain ⟨cr, hc, hm⟩ := iha h
      exact ⟨cr, by simp [hc], hm⟩

/-- C3, amended: every rule in the optimizer's OUTPUT LIST has at least
one direct property child — rules whose bodies contain only nested rules
are removed with their selectors distributed onto descendants — but
`optimize` keeps a rule with properties verbatim (`results.push(self)`)
without recursing into it, so property-less rules nested INSIDE a kept
rule survive (see the counterexample). -/
theorem c3_optimize_output_has_properties :
    ∀ (r : Rule.SassRule), ∀ r' ∈ r.optimize, r'.has_properties = true := by
  suffices H : ∀ n (r : Rule.SassRule), Rule.ruleWeight r ≤ n →
      ∀ r' ∈ r.optimize, r'.has_properties = true by
    intro r
    exact H (Rule.ruleWeight r) r le_rfl
  intro n
  induction n using Nat.strong_induction_on with
  | _ n ih =>
    intro r hw r' hr'
    by_cases hp : r.has_properties
    · simp only [Rule.SassRule.optimize, hp, if_true, List.mem_singleton] at hr'
      subst hr'
      exact hp
    · simp only [Rule.SassRule.optimize, hp, if_false, Bool.false_eq_true] at hr'
      obtain ⟨cr, hcr, hm⟩ := mem_collapseList hr'
      have hlt : Rule.ruleWeight cr < n :=
        Nat.lt_of_lt_of_le (ruleWeight_lt_of_mem_child_rules hcr) hw
      simp only [Rule.SassRule.collapse_with_parent_selectors] at hm
      exact ih (Rule.ruleWeight cr) hlt _
        (le_of_eq (Rule.ruleWeight_mk_children _ cr)) r' hm

/-- C3, counterexample: the outer rule `a { p: v; b { c { q: w; } } }` has
a property, so `optimize` returns it verbatim; the nested rule `b`, still
inside the output, has no direct property child — refuting the claim that
EVERY rule in the output (nested ones included) has one and that
ancestor-only rules are removed. -/
theorem c3_counterexample :
    (Rule.SassRule.mk [⟨"a".toList, none⟩]
      [.Property ⟨"p".toList, none⟩ ⟨"v".toList, none⟩,
       .Rule (.mk [⟨"b".toList, none⟩]
         [.Rule (.mk [⟨"c".toList, none⟩]
           [.Property ⟨"q".toList, none⟩ ⟨"w".toList, none⟩])])]).optimize =
    [Rule.SassRule.mk [⟨"a".toList, none⟩]
      [.Property ⟨"p".toList, none⟩ ⟨"v".toList, none⟩,
       .Rule (.mk [⟨"b".toList, none⟩]
         [.Rule (.mk [⟨"c".toList, none⟩]
           [.Property ⟨"q".toList, none⟩ ⟨"w".toList, none⟩])])]] ∧
    (Rule.SassRule.mk [⟨"a".toList, none⟩]
      [.Property ⟨"p".toList, none⟩ ⟨"v".toList, none⟩,
       .Rule (.mk [⟨"b".toList, none⟩]
         [.Rule (.mk [⟨"c".toList, none⟩]
           [.Property ⟨"q".toList, none⟩ ⟨"w".toList, none⟩])])]).child_rules =
    [Rule.SassRule.mk [⟨"b".toList, none⟩]
      [.Rule (.mk [⟨"c".toList, none⟩]
        [.Property ⟨"q".toList, none⟩ ⟨"w".toList, none⟩])]] ∧
    (Rule.SassRule.mk [⟨"b".toList, none⟩]
      [.Rule (.mk [⟨"c".toList, none⟩]
        [.Property ⟨"q".toList, none⟩ ⟨"w".toList, none⟩])]).has_properties =
      false := by
  refine ⟨?_, by rfl, by rfl⟩
  simp [Rule.SassRule.optimize, Rule.SassRule.has_properties,
    Rule.SassRule.child_properties, Rule.SassRule.children]

/-! Claim C4. -/

theorem has_properties_mk_children (sel : List Rule.Lexeme)
    (r : Rule.SassRule) :
    (Rule.SassRule.mk sel r.children).has_properties = r.has_properties := by
  cases r; rfl

/-- C4, counterexample: the optimizer's collapse does NOT use the
`&`-substituting distribution operator.  Collapsing the child `&:hover`
under the parent `.btn` produces the selector `".btn &:hover"` (plain
`parent + " " + child`), whereas the claimed operator produces
`".btn:hover"` — and the two differ. -/
theorem c4_counterexample :
    (Rule.SassRule.mk [⟨"&:hover".toList, some 7⟩]
        [.Property ⟨"color".toList, none⟩
          ⟨"red".toList, none⟩]).collapse_with_parent_selectors
        [⟨".btn".toList, some 0⟩] =
      [Rule.SassRule.mk [⟨".btn &:hover".toList, some 0⟩]
        [.Property ⟨"color".toList, none⟩ ⟨"red".toList, none⟩]] ∧
    Rule.claimed_distribution ["&:hover".toList] ".btn".toList (", ").toList =
      ".btn:hover".toList ∧
    ".btn &:hover".toList ≠ ".btn:hover".toList := by
  refine ⟨?_, by decide, by decide⟩
  simp [Rule.SassRule.collapse_with_parent_selectors, Rule.SassRule.optimize,
    Rule.SassRule.has_properties, Rule.SassRule.child_properties,
    Rule.SassRule.children, Rule.SassRule.selectors]

/-- C4, amended: the distribution operator with the `&` exception belongs
to the streamer alone — for a non-empty ancestor chain,
`selector_distribution` splits the chain on commas and, per segment and
child, joins the TRIMMED segment and the child with a space, or replaces
every `&` by the trimmed segment — while the optimizer's collapse forms
the plain cross product `parent.token + " " + child.token` (no `&`
substitution, no trimming) and re-optimizes it. -/
theorem c4_distribution :
    (∀ (r : Rule.SassRule) (parents separator : List Char),
      parents.length ≠ 0 →
      r.selector_distribution parents separator =
        Rule.amended_distribution (r.selectors.map (fun s => s.token))
          parents separator) ∧
    (∀ (r : Rule.SassRule) (parents : List Rule.Lexeme),
      r.has_properties = true →
      r.collapse_with_parent_selectors parents =
        [Rule.SassRule.mk (Rule.collapse_cross parents r.selectors)
          r.children]) := by
  constructor
  · intro r parents separator hne
    rcases hk : parents.length with _ | k
    · exact absurd hk hne
    · simp only [Rule.SassRule.selector_distribution, Rule.amended_distribution,
        hk, List.map_map]
      rfl
  · intro r parents hp
    simp only [Rule.SassRule.collapse_with_parent_selectors,
      Rule.SassRule.optimize, Rule.collapse_cross]
    rw [has_properties_mk_children, hp]
    simp

/-- C4 witness: the amended theorem applied at the chain `".a, .b"` with
child `"x"` and at the collapse of the rule `&:x { c: v; }` under the
parent `".p"`. -/
theorem c4_distribution_witness :
    (Rule.SassRule.mk [⟨"x".toList, none⟩] []).selector_distribution
        ".a, .b".toList (", ").toList =
      Rule.amended_distribution ["x".toList] ".a, .b".toList (", ").toList ∧
    (Rule.SassRule.mk [⟨"&:x".toList, none⟩]
        [.Property ⟨"c".toList, none⟩
          ⟨"v".toList, none⟩]).collapse_with_parent_selectors
        [⟨".p".toList, some 1⟩] =
      [Rule.SassRule.mk
        (Rule.collapse_cross [⟨".p".toList, some 1⟩] [⟨"&:x".toList, none⟩])
        [.Property ⟨"c".toList, none⟩ ⟨"v".toList, none⟩]] :=
  ⟨c4_distribution.1 (Rule.SassRule.mk [⟨"x".toList, none⟩] [])
      ".a, .b".toList (", ").toList (by decide),
   c4_distribution.2 (Rule.SassRule.mk [⟨"&:x".toList, none⟩]
      [.Property ⟨"c".toList, none⟩ ⟨"v".toList, none⟩])
      [⟨".p".toList, some 1⟩] (by decide)⟩

/-! Claim C8. -/

/-- C8, counterexample: the spec's documented styles `"debug"`, `"tokens"`
and `"ast"` are not known to `compile`, which panics on them just as it
does on a wholly unknown style — no `InvalidStyle` error value is ever
returned (the function's type has no error channel at all). -/
theorem c8_counterexample :
    Lib.compile ("x").toList ("debug").toList = .panicked ∧
    Lib.compile ("x").toList ("tokens").toList = .panicked ∧
    Lib.compile ("x").toList ("ast").toList = .panicked ∧
    Lib.compile ("x").toList ("unknown").toList = .panicked := by
  refine ⟨by decide, by decide, by decide, by decide⟩

/-- C8, amended: the known style set is exactly `nested`, `compressed`,
`expanded`, `compact` — the first, third and fourth return the parsed
source unchanged, `compressed` removes every space and newline — and any
other style string makes `compile` panic with `"Unknown style: ..."`
rather than return an error value. -/
theorem c8_compile_styles :
    (∀ sass : List Char, Lib.compile sass ("nested").toList = .ok sass) ∧
    (∀ sass : List Char, Lib.compile sass ("compressed").toList =
      .ok ((sass.filter (fun c => c != ' ')).filter (fun c => c != '\n'))) ∧
    (∀ sass : List Char, Lib.compile sass ("expanded").toList = .ok sass) ∧
    (∀ sass : List Char, Lib.compile sass ("compact").toList = .ok sass) ∧
    (∀ sass style : List Char,
      style ≠ "nested".toList → style ≠ "compressed".toList →
      style ≠ "expanded".toList → style ≠ "compact".toList →
      Lib.compile sass style = .panicked) := by
  refine ⟨fun sass => rfl, fun sass => rfl, ?_, fun sass => rfl, ?_⟩
  · intro sass
    simp [Lib.compile, Lib.expanded]
  · intro sass style h1 h2 h3 h4
    have h1' : style ≠ ['n', 'e', 's', 't', 'e', 'd'] := h1
    have h2' : style ≠ ['c', 'o', 'm', 'p', 'r', 'e', 's', 's', 'e', 'd'] := h2
    have h3' : style ≠ ['e', 'x', 'p', 'a', 'n', 'd', 'e', 'd'] := h3
    have h4' : style ≠ ['c', 'o', 'm', 'p', 'a', 'c', 't'] := h4
    simp [Lib.compile, h1', h2', h3', h4']

/-- C8 witness: the amended theorem applied at a concrete source and the
style strings `"nested"` and `"zzz"`. -/
theorem c8_compile_styles_witness :
    Lib.compile ("a b").toList ("nested").toList = .ok ("a b").toList ∧
    Lib.compile ("a b").toList ("zzz").toList = .panicked :=
  ⟨c8_compile_styles.1 ("a b").toList,
   c8_compile_styles.2.2.2.2 ("a b").toList ("zzz").toList (by decide) (by decide)
     (by decide) (by decide)⟩

/-! Claim C1. -/

theorem hmInsert_append {α : Type} (acc : Subst.StrMap α) (k : String)
    (v : α) (h : ∀ kv ∈ acc, kv.1 ≠ k) :
    Subst.hmInsert acc k v = acc ++ [(k, v)] := by
  rw [Subst.hmInsert, if_neg]
  intro hc
  simp only [List.any_eq_true, decide_eq_true_eq] at hc
  obtain ⟨kv, hm, he⟩ := hc
  exact h kv hm he

theorem collate_go_spec (args : List Subst.SassMixinArgument)
    (named : Subst.StrMap String) :
    ∀ (ps : List Subst.SassMixinParameter) (k : Nat)
      (acc : Subst.StrMap Subst.SubValuePart),
      (ps.map (fun p => p.name)).Nodup →
      (∀ p ∈ ps, ∀ kv ∈ acc, kv.1 ≠ p.name) →
      ((Subst.collate_go args named k ps acc = .error .ExpectedMixinArgument ↔
          ∃ i, ∃ hi : i < ps.length,
            Subst.param_binding args named (ps.get ⟨i, hi⟩) (k + i) = none) ∧
        (∀ e, Subst.collate_go args named k ps acc = .error e →
          e = .ExpectedMixinArgument) ∧
        (∀ m, Subst.collate_go args named k ps acc = .ok m →
          m = acc ++ Subst.collate_expected args named k ps)) := by
  intro ps
  induction ps with
  | nil =>
    intro k acc hnd hdisj
    refine ⟨?_, ?_, ?_⟩
    · simp [Subst.collate_go]
    · intro e he
      exact Except.noConfusion he
    · intro m hm
      injection hm with hm
      simp [Subst.collate_expected, hm]
  | cons p ps ih =>
    intro k acc hnd hdisj
    rcases hb : Subst.param_binding args named p k with _ | v
    · refine ⟨?_, ?_, ?_⟩
      · simp only [Subst.collate_go, hb]
        constructor
        · intro _
          exact ⟨0, by simp, by simpa using hb⟩
        · intro _
          trivial
      · intro e he
        simp only [Subst.collate_go, hb] at he
        injection he with he
        exact he.symm
      · intro m hm
        simp only [Subst.collate_go, hb] at hm
        exact Except.noConfusion hm
    · have hsplit : (∀ x ∈ ps, ¬x.name = p.name) ∧
          (ps.map (fun p => p.name)).Nodup := by
        simpa using hnd
      have hnd' : (ps.map (fun p => p.name)).Nodup := hsplit.2
      have hacc : ∀ kv ∈ acc, kv.1 ≠ p.name :=
        fun kv hkv => hdisj p (by simp) kv hkv
      have hins : Subst.hmInsert acc p.name (Subst.SubValuePart.String v) =
          acc ++ [(p.name, Subst.SubValuePart.String v)] :=
        hmInsert_append acc p.name _ hacc
      have hdisj' : ∀ q ∈ ps,
          ∀ kv ∈ acc ++ [(p.name, Subst.SubValuePart.String v)],
            kv.1 ≠ q.name := by
        intro q hq kv hkv
        rcases List.mem_append.mp hkv with hkv | hkv
        · exact hdisj q (by simp [hq]) kv hkv
        · simp only [List.mem_singleton] at hkv
          subst hkv
          exact fun hcon => hsplit.1 q hq hcon.symm
      obtain ⟨ihiff, ihkind, ihok⟩ := ih (k + 1)
        (acc ++ [(p.name, Subst.SubValuePart.String v)]) hnd' hdisj'
      refine ⟨?_, ?_, ?_⟩
      · simp only [Subst.collate_go, hb, hins]
        rw [ihiff]
        constructor
        · rintro ⟨j, hj, hnone⟩
          refine ⟨j + 1, by simpa using Nat.succ_lt_succ hj, ?_⟩
          have : k + (j + 1) = k + 1 + j := by omega
          rw [this]
          simpa using hnone
        · rintro ⟨i, hi, hnone⟩
          cases i with
          | zero =>
            simp only [List.get] at hnone
            rw [Nat.add_zero] at hnone
            rw [hb] at hnone
            exact Option.noConfusion hnone
          | succ j =>
            refine ⟨j, by simpa using Nat.lt_of_succ_lt_succ hi, ?_⟩
            have : k + 1 + j = k + (j + 1) := by omega
            rw [this]
            simpa using hnone
      · intro e he
        simp only [Subst.collate_go, hb, hins] at he
        exact ihkind e he
      · intro m hm
        simp only [Subst.collate_go, hb, hins] at hm
        have := ihok m hm
        rw [this, List.append_assoc]
        simp [Subst.collate_expected, hb]

/-- C1, amended: for each parameter in declaration order, the bound value
is a named argument matching the parameter's name if one exists, otherwise
the value of the call's argument at the parameter's declaration-order
index — WHETHER OR NOT that argument is named (named arguments do occupy
positions; the code indexes the full argument vector) — otherwise the
parameter's default; if none exists the call fails with
`ExpectedMixinArgument` (and that is the only failure).  Stated for
parameter lists with distinct names, as the replacements map is keyed by
name. -/
theorem c1_collate_mixin_args
    (parameters : List Subst.SassMixinParameter)
    (arguments : List Subst.SassMixinArgument)
    (hnd : (parameters.map (fun p => p.name)).Nodup) :
    (Subst.collate_mixin_args parameters arguments =
        .error .ExpectedMixinArgument ↔
      ∃ i, ∃ hi : i < parameters.length,
        Subst.param_binding arguments (Subst.named_arguments arguments)
          (parameters.get ⟨i, hi⟩) i = none) ∧
    (∀ e, Subst.collate_mixin_args parameters arguments = .error e →
      e = .ExpectedMixinArgument) ∧
    (∀ m, Subst.collate_mixin_args parameters arguments = .ok m →
      m = Subst.collate_expected arguments (Subst.named_arguments arguments)
        0 parameters) := by
  obtain ⟨hiff, hkind, hok⟩ := collate_go_spec arguments
    (Subst.named_arguments arguments) parameters 0 [] hnd (by simp)
  refine ⟨?_, hkind, ?_⟩
  · rw [Subst.collate_mixin_args, hiff]
    constructor
    · rintro ⟨i, hi, h⟩
      exact ⟨i, hi, by simpa using h⟩
    · rintro ⟨i, hi, h⟩
      exact ⟨i, hi, by simpa using h⟩
  · intro m hm
    have := hok m hm
    simpa using this

/-- C1 witness: the amended theorem applied at the declaration
`@mixin box($p: 4px, $c: red)` and the call `@include box($c: blue)` —
the named argument `$c: blue` occupies position 0, so `$p` binds `"blue"`
(not its default `"4px"`), and `$c` binds `"blue"` by name. -/
theorem c1_collate_mixin_args_witness :
    [("$p", Subst.SubValuePart.String ("blue")),
     ("$c", Subst.SubValuePart.String ("blue"))] =
      Subst.collate_expected [{ name := some ("$c"), value := "blue" }]
        (Subst.named_arguments [{ name := some ("$c"), value := "blue" }]) 0
        [{ name := "$p", default := some ("4px") },
         { name := "$c", default := some ("red") }] :=
  (c1_collate_mixin_args
    [{ name := "$p", default := some ("4px") },
     { name := "$c", default := some ("red") }]
    [{ name := some ("$c"), value := "blue" }] (by decide)).2.2
    [("$p", Subst.SubValuePart.String ("blue")),
     ("$c", Subst.SubValuePart.String ("blue"))] rfl

/-- C1, counterexample: on that same declaration and call the code binds
`$p` to `"blue"` — the named argument at position 0 satisfies `$p`
positionally — while the claim's binding rule (named arguments do not
satisfy a parameter positionally) binds `$p` to its default `"4px"`. -/
theorem c1_counterexample :
    Subst.collate_mixin_args
        [{ name := "$p", default := some ("4px") },
         { name := "$c", default := some ("red") }]
        [{ name := some ("$c"), value := "blue" }] =
      .ok [("$p", .String ("blue")), ("$c", .String ("blue"))] ∧
    Subst.spec_param_binding [{ name := some ("$c"), value := "blue" }]
        { name := "$p", default := some ("4px") } 0 = some ("4px") ∧
    ("blue" : String) ≠ "4px" := by
  refine ⟨by rfl, by decide, by decide⟩

/-! Claim C9. -/

/-- C9: scope isolation at the top level.  Processing a `Rule` event hands
`replace_children_in_scope` CLONES of the variable and mixin tables
(`st.vars`, `st.mixins` — the snapshot) and leaves the iterator's own
state untouched: whatever the rule's children bind, the remaining events
`rest` are processed from exactly the state `st` that preceded the rule.
Holds for every evaluator, every fuel, and every state. -/
theorem c9_scope_isolation
    (ev : Subst.Evaluator) (fuel : Nat) (st : Subst.SubstState)
    (rule : Subst.SSassRule) (rest : List (Except ErrorKind Subst.SEvent)) :
    match Subst.replace_children_in_scope ev fuel rule.children st.vars
        st.mixins with
    | none => Subst.substRun ev fuel st (.ok (.Rule rule) :: rest) = .fuelOut []
    | some (.error e) =>
        Subst.substRun ev fuel st (.ok (.Rule rule) :: rest) =
          Subst.consOut (.error e) (Subst.substRun ev fuel st rest)
    | some (.ok children2) =>
        Subst.substRun ev fuel st (.ok (.Rule rule) :: rest) =
          Subst.consOut
            (.ok (.Rule (Subst.SSassRule.mk rule.selectors children2)))
            (Subst.substRun ev fuel st rest) := by
  rcases h : Subst.replace_children_in_scope ev fuel rule.children st.vars
      st.mixins with _ | exc
  · simp only [Subst.substRun, Subst.substIter, Subst.substNext, h,
      List.length_cons]
  · rcases exc with e | children2 <;>
      simp only [Subst.substRun, Subst.substIter, Subst.substNext, h,
        List.length_cons]

/-! Claim C5. -/

/-- C5, counterexample: on the declaration
`@mixin m() { a { b: c; } }` the captured body is `"a { b: c; "` — the
scan stops at the FIRST `}` (the one closing the nested rule `a`), not at
the brace matching the mixin's opening brace, which would capture
`"a { b: c; } "`. -/
theorem c5_counterexample :
    Tok.next_mixin ⟨['m', '(', ')', ' ', '\x7b', ' ', 'a', ' ', '\x7b', ' ',
        'b', ':', ' ', 'c', ';', ' ', '\x7d', ' ', '\x7d'], 0⟩ =
      .ok ['m'] [] ['a', ' ', '\x7b', ' ', 'b', ':', ' ', 'c', ';', ' ']
        ⟨['m', '(', ')', ' ', '\x7b', ' ', 'a', ' ', '\x7b', ' ',
          'b', ':', ' ', 'c', ';', ' ', '\x7d', ' ', '\x7d'], 17⟩ ∧
    ['a', ' ', '\x7b', ' ', 'b', ':', ' ', 'c', ';', ' '] ≠
      ['a', ' ', '\x7b', ' ', 'b', ':', ' ', 'c', ';', ' ', '\x7d', ' '] := by
  exact ⟨by decide, by decide⟩

set_option maxHeartbeats 1000000 in
/-- C5, amended: for a zero-argument mixin declaration, the stored body is
the verbatim source slice from after the opening brace (and the
whitespace following it) up to but NOT including the first `}` — captured
by a character-class scan, not a brace-depth counter — so a body
containing nested braces is truncated at the first closing brace.  Stated
for bodies without `}`, where the capture is exact. -/
theorem c5_next_mixin_body (name body rest : List Char)
    (hvalid : ∀ c ∈ name, Tok.valid_name_char c = true)
    (hnb : ∀ c ∈ body, c ≠ '\x7d')
    (hhd : ∀ c ∈ body.take 1, Tok.tok_is_whitespace c = false) :
    Tok.next_mixin
        ⟨name ++ '(' :: ')' :: '\x7b' :: (body ++ '\x7d' :: rest), 0⟩ =
      .ok name [] body
        ⟨name ++ '(' :: ')' :: '\x7b' :: (body ++ '\x7d' :: rest),
          name.length + 3 + body.length + 1⟩ := by
  set s0 : List Char := name ++ '(' :: ')' :: '\x7b' :: (body ++ '\x7d' :: rest)
    with hs0
  clear_value s0
  have h0 : (s0).drop
      name.length = '(' :: ')' :: '\x7b' :: (body ++ '\x7d' :: rest) := by
    rw [hs0]
    exact List.drop_left _ _
  have hdp : ∀ k : Nat,
      (s0).drop
        (name.length + k) =
      (('(' :: ')' :: '\x7b' :: (body ++ '\x7d' :: rest)) : List Char).drop
        k := by
    intro k
    rw [← List.drop_drop, h0]
  have h1 := hdp 1
  have h2 := hdp 2
  have h3 := hdp 3
  simp only [List.drop_succ_cons, List.drop_zero] at h1 h2 h3
  have hnm : (s0).takeWhile
      Tok.valid_name_char = name := by
    rw [hs0]
    exact takeWhile_append_head_false hvalid (fun c hc => by
      simp at hc; subst hc; decide)
  have hbw : (body ++ '\x7d' :: rest).takeWhile Tok.tok_is_whitespace = [] := by
    cases body with
    | nil => simp [List.takeWhile_cons]; decide
    | cons b bs =>
      simp only [List.cons_append, List.takeWhile_cons]
      simp [hhd b (by simp)]
  have hbody : (body ++ '\x7d' :: rest).takeWhile Tok.isnt_end_curly_brace =
      body :=
    takeWhile_append_head_false
      (fun c hc => by simp [Tok.isnt_end_curly_brace, hnb c hc])
      (fun c hc => by simp at hc; subst hc; decide)
  have h4 : (s0).drop
      (name.length + 3 + body.length) = '\x7d' :: rest := by
    rw [← List.drop_drop, hdp 3]
    simp only [List.drop_succ_cons, List.drop_zero]
    exact List.drop_left _ _
  have h2' : (s0).drop
      (name.length + 1 + 1) = '\x7b' :: (body ++ '\x7d' :: rest) := by
    rw [show name.length + 1 + 1 = name.length + 2 by omega]
    exact h2
  have h3' : (s0).drop
      (name.length + 1 + 1 + 1) = body ++ '\x7d' :: rest := by
    rw [show name.length + 1 + 1 + 1 = name.length + 3 by omega]
    exact h3
  have h4' : (s0).drop
      (name.length + 1 + 1 + 1 + body.length) = '\x7d' :: rest := by
    rw [show name.length + 1 + 1 + 1 + body.length =
      name.length + 3 + body.length by omega]
    exact h4
  have hwsr : Tok.tok_is_whitespace ')' = false := by decide
  have hwsb : Tok.tok_is_whitespace '\x7b' = false := by decide
  have hpos : 0 < s0.length := by rw [hs0]; simp
  have htl : Tok.tokenize_list [')'] Tok.valid_mixin_arg_char
      ((s0).length + 1)
      ⟨s0,
        name.length + 1⟩ =
      some ([], ⟨s0,
        name.length + 1 + 1⟩) := by
    simp only [Tok.tokenize_list, Tok.Toker.skip_leading_whitespace,
      Tok.Toker.eat, h1, List.takeWhile_cons, hwsr, List.length_nil,
      Nat.add_zero, List.length_cons, List.take_succ_cons, List.take_zero,
      if_true]
    simp [h1]
  simp only [Tok.next_mixin, Tok.Toker.limit, Tok.Toker.eat,
    Tok.Toker.skip_leading_whitespace, Tok.Toker.scan_while_or_end,
    List.drop_zero, Nat.zero_add, Nat.add_zero, List.length_cons,
    List.length_nil, List.take_succ_cons, List.take_zero,
    List.takeWhile_cons, if_true, hpos, hnm, h1, h2', h3', h4', hbw, hbody,
    htl, hwsr, hwsb]
  simp only [h0, h1, h2', h3', h4', htl, hbw, hbody, hwsb, hwsr,
    List.take_succ_cons, List.take_zero, List.takeWhile_cons,
    List.length_nil, List.length_cons, Nat.add_zero, if_true,
    Bool.false_eq_true, if_false]

/-- C5 witness: the amended theorem applied at the declaration
`@mixin m(){x}` (name `m`, empty argument list, body `x`). -/
theorem c5_next_mixin_body_witness :
    Tok.next_mixin ⟨['m', '(', ')', '\x7b', 'x', '\x7d'], 0⟩ =
      .ok ['m'] [] ['x'] ⟨['m', '(', ')', '\x7b', 'x', '\x7d'], 6⟩ :=
  c5_next_mixin_body ['m'] ['x'] [] (by decide) (by decide) (by decide)

/-- C6 witness: the amended theorem applied at the input `"10px"`
(digit run `10`, letter run `px`). -/
theorem c6_number_then_string_witness :
    VT.vnext ['1', '0', 'p', 'x'] 0 =
      .yielded (.Number (VT.ratOfRun ['1', '0'])) 2 ∧
    VT.vnext ['1', '0', 'p', 'x'] 2 = .yielded (.String ['p', 'x']) 4 ∧
    VT.vnext ['1', '0', 'p', 'x'] 4 = .finished :=
  c6_number_then_string '1' ['0'] 'p' ['x'] (by decide) (by decide)
    (by decide) (by decide) (by decide) (by decide) (by decide) (by decide)

/-- C3 witness: the amended theorem applied at the rule `a { p: v; }`,
whose optimizer output is itself. -/
theorem c3_optimize_output_has_properties_witness :
    (Rule.SassRule.mk [⟨"a".toList, none⟩]
      [.Property ⟨"p".toList, none⟩ ⟨"v".toList, none⟩]).has_properties =
      true :=
  c3_optimize_output_has_properties
    (Rule.SassRule.mk [⟨"a".toList, none⟩]
      [.Property ⟨"p".toList, none⟩ ⟨"v".toList, none⟩])
    (Rule.SassRule.mk [⟨"a".toList, none⟩]
      [.Property ⟨"p".toList, none⟩ ⟨"v".toList, none⟩])
    (by simp [Rule.SassRule.optimize, Rule.SassRule.has_properties,
      Rule.SassRule.child_properties, Rule.SassRule.children])
